import Mathlib

/-!
Shallow embedding, in Lean 4, of the data-exploration pipeline of the
`immo-eliza-data-exploration-nairobi` repository.

The embedding covers the parts of the code that the verified claims are
about:

* `utils/correlation.py` — class `Correlation`: `add_col_region`,
  `one_hot_encoding`, `target_encoding`, `label_encoding`, `corr_cals`
  and `select_features`;
* `utils/data_processing.py` — class `DataCleaner`: `create_dataframe`
  and `write_to_csv`.

Machine floats of the original (pandas) code are modelled by exact
rationals; a pandas `DataFrame` column is modelled by a list of optional
cell values (`none` models `NaN`); a raised Python exception is modelled
by `Except.error`.

The file is organised as definitions first, then theorems.
-/

namespace ImmoEliza

/-! ### A stable sort, modelling Python `sorted`

Python `sorted(..., key = k, reverse = True)` is a stable descending
sort.  It is modelled by a stable insertion sort: `lt y x = true` means
`y` must come strictly before `x`, and an inserted element is placed
before the first element that is not strictly before it, which preserves
the original order of elements whose keys compare equal. -/

def insertBy {α : Type} (lt : α → α → Bool) (x : α) : List α → List α
  | [] => [x]
  | y :: ys => if lt y x then y :: insertBy lt x ys else x :: y :: ys

def sortBy {α : Type} (lt : α → α → Bool) : List α → List α
  | [] => []
  | x :: xs => insertBy lt x (sortBy lt xs)

/-! ### `Correlation.select_features` (utils/correlation.py, lines 158-185)

A correlation matrix, as produced by `corr_cals`, is modelled by its
list of row/column labels and its (rational-valued) entry function:
`entry a b` models `self.corr.loc[a, b]`.

`select_features(thres1, thres2)` first builds
`select = self.corr["price"][abs(self.corr["price"]) >= thres1].to_dict()`,
then executes `select.pop("price")` — a `KeyError` when `"price"` failed
its own filter — sorts the survivors by descending absolute value
(stably), and finally runs the nested greedy loop over the *unmodified*
dict `select`, popping (with default, hence never failing) from the copy
`select_final`.  The dict value stored for a variable `v` is
`priceCorr m v`; the embedding tracks the ordered key list, from which
the value of every key is recovered by `priceCorr`. -/

structure CorrMatrix where
  cols : List String
  entry : String → String → ℚ

/-- The value `self.corr["price"][v]`, i.e. `self.corr.loc[v, "price"]`. -/
def priceCorr (m : CorrMatrix) (v : String) : ℚ := m.entry v "price"

/-- The keys of `self.corr["price"][abs(self.corr["price"]) >= thres1].to_dict()`,
in matrix order. -/
def rawSelect (m : CorrMatrix) (t1 : ℚ) : List String :=
  m.cols.filter (fun v => t1 ≤ |priceCorr m v|)

/-- The keys of `select` after `select.pop("price")` and the stable
descending re-ordering by absolute correlation with price (line 171). -/
def sortedSelect (m : CorrMatrix) (t1 : ℚ) : List String :=
  sortBy (fun a b => |priceCorr m b| < |priceCorr m a|)
    ((rawSelect m t1).erase "price")

/-- For a redundant pair `(var1, var2)`: `var2` is popped when
`abs(val1) > abs(val2)`, otherwise `var1` is popped (lines 178-181). -/
def popTarget (m : CorrMatrix) (v1 v2 : String) : String :=
  if |priceCorr m v2| < |priceCorr m v1| then v2 else v1

/-- One iteration of the inner loop body (lines 176-181): nothing happens
unless `var1 != var2` and `self.corr.loc[var1, var2] >= thres2`. -/
def pairStep (m : CorrMatrix) (t2 : ℚ) (acc : List String) (v1 v2 : String) :
    List String :=
  if v1 ≠ v2 ∧ t2 ≤ m.entry v1 v2 then acc.erase (popTarget m v1 v2) else acc

/-- The full nested loop of lines 174-181, starting from
`select_final = select.copy()`; both loops iterate over the sorted
`select`, which the pops never modify. -/
def selectLoop (m : CorrMatrix) (t2 : ℚ) (s : List String) : List String :=
  s.foldl (fun acc v1 => s.foldl (fun acc2 v2 => pairStep m t2 acc2 v1 v2) acc) s

/-- `Correlation.select_features(thres1, thres2)`: the ordered keys of
`select_final`, or the `KeyError` escaping from `select.pop("price")`. -/
def select_features (m : CorrMatrix) (t1 t2 : ℚ) : Except String (List String) :=
  if "price" ∈ rawSelect m t1 then
    Except.ok (selectLoop m t2 (sortedSelect m t1))
  else
    Except.error "KeyError: price"

/-- The iteration of the nested loop at `(v1, v2)` pops `v`. -/
def pops (m : CorrMatrix) (t2 : ℚ) (v1 v2 v : String) : Prop :=
  v1 ≠ v2 ∧ t2 ≤ m.entry v1 v2 ∧ v = popTarget m v1 v2

/-! ### `Correlation.add_col_region` (utils/correlation.py, lines 34-46) -/

def flanders_provinces : List String :=
  ["West flanders", "East flanders", "Antwerp", "Flemish brabant"]

def wallonia_provinces : List String :=
  ["Hainaut", "Liège", "Walloon brabant", "Namur", "Luxembourg"]

/-- The lambda mapped over `self.df["province"]` on lines 43-46. -/
def region (x : String) : String :=
  if x ∈ flanders_provinces then "Flanders"
  else if x ∈ wallonia_provinces then "Walloon"
  else "Brussels"

/-- `add_col_region`: the new `region` column, one value per `province` row. -/
def add_col_region (provinces : List String) : List String :=
  provinces.map region

/-! ### `Correlation.one_hot_encoding` (utils/correlation.py, lines 48-61)

The object-typed (text) part of the dataframe is modelled as a list of
named columns of optional strings (`none` models `NaN`).  The Python
loop `for col in exclude_cols: encoding_cols.remove(col)` removes the
first occurrence of each excluded name in turn and raises `ValueError`
as soon as a name is not present; the subsequent
`self.df[encoding_cols] = self.df[encoding_cols].fillna("unknown")`
runs only if the whole loop succeeded, so on error the dataframe is
unchanged and `Except.error` carries the offending name. -/

structure TextTable where
  cols : List (String × List (Option String))

/-- Sequential `list.remove` of every name in `excl`, as on lines 58-59. -/
def removeCols : List String → List String → Except String (List String)
  | cols, [] => Except.ok cols
  | cols, e :: rest =>
      if e ∈ cols then removeCols (cols.erase e) rest
      else Except.error e

/-- `one_hot_encoding(exclude_cols)`: on success, every column whose name
survived the removals has its missing entries replaced by `"unknown"`;
the error value names the first excluded column whose removal failed. -/
def one_hot_encoding (exclude_cols : List String) (t : TextTable) :
    Except String TextTable :=
  match removeCols (t.cols.map Prod.fst) exclude_cols with
  | Except.error e => Except.error e
  | Except.ok encoding_cols =>
      Except.ok ⟨t.cols.map (fun c =>
        if c.1 ∈ encoding_cols then
          (c.1, c.2.map (fun v => some (v.getD "unknown")))
        else c)⟩

/-! ### `Correlation.target_encoding` (utils/correlation.py, lines 63-75)

`self.df[col].map(self.df.groupby(col)["price"].mean())`: each row of
the encoded column receives the mean of `price` over the rows sharing
its category; pandas `mean` skips missing prices, and a group whose
prices are all missing gets a missing mean. -/

def groupPrices (cats : List String) (prices : List (Option ℚ)) (c : String) :
    List ℚ :=
  (cats.zip prices).filterMap (fun p => if p.1 = c then p.2 else none)

def groupMean (cats : List String) (prices : List (Option ℚ)) (c : String) :
    Option ℚ :=
  if (groupPrices cats prices c).length = 0 then none
  else some ((groupPrices cats prices c).sum / (groupPrices cats prices c).length)

/-- The new column `col + "_target_encoding"`. -/
def target_encoding (cats : List String) (prices : List (Option ℚ)) :
    List (Option ℚ) :=
  cats.map (groupMean cats prices)

/-! ### `Correlation.label_encoding` (utils/correlation.py, lines 78-124)

The hard-coded rank dictionaries of the ranked branch; a category absent
from a dictionary — or mapped to Python `None`, as the composite EPC
scores are — comes out of pandas `.map` as missing. -/

def order_flood : String → Option ℚ := fun s =>
  if s = "RECOGNIZED_N_CIRCUMSCRIBED_WATERSIDE_FLOOD_ZONE" then some 0
  else if s = "RECOGNIZED_N_CIRCUMSCRIBED_FLOOD_ZONE" then some 1
  else if s = "RECOGNIZED_FLOOD_ZONE" then some 2
  else if s = "CIRCUMSCRIBED_WATERSIDE_ZONE" then some 3
  else if s = "CIRCUMSCRIBED_FLOOD_ZONE" then some 4
  else if s = "POSSIBLE_N_CIRCUMSCRIBED_WATERSIDE_ZONE" then some 5
  else if s = "POSSIBLE_N_CIRCUMSCRIBED_FLOOD_ZONE" then some 6
  else if s = "POSSIBLE_FLOOD_ZONE" then some 7
  else if s = "NON_FLOOD_ZONE" then some 8
  else none

def order_building : String → Option ℚ := fun s =>
  if s = "TO_RESTORE" then some 0
  else if s = "TO_RENOVATE" then some 1
  else if s = "TO_BE_DONE_UP" then some 2
  else if s = "GOOD" then some 3
  else if s = "JUST_RENOVATED" then some 4
  else if s = "AS_NEW" then some 5
  else none

def order_epcScore : String → Option ℚ := fun s =>
  if s = "G" then some 0
  else if s = "F" then some 1
  else if s = "E" then some 2
  else if s = "D" then some 3
  else if s = "C" then some 4
  else if s = "B" then some 5
  else if s = "A" then some 6
  else if s = "A+" then some 7
  else if s = "A++" then some 8
  else none

/-- The list the ranked branch is guarded by on line 88 of the source:
`if label_cols == ["floodZoneType","building_ranking","epcScore"]:`. -/
def rankedBranchCols : List String :=
  ["floodZoneType", "building_ranking", "epcScore"]

/-- The documented default of `label_encoding` (line 78 of the source). -/
def defaultLabelCols : List String :=
  ["floodZoneType", "buildingCondition", "epcScore"]

/-- `sklearn.preprocessing.LabelEncoder().fit_transform`: the classes are
the sorted distinct values of the column and each value is replaced by
its index among them. -/
def sklearnClasses (col : List String) : List String :=
  sortBy (fun a b => decide (a < b)) col.dedup

def sklearnTransform (col : List String) : List (Option ℚ) :=
  col.map (fun s =>
    (((sklearnClasses col).findIdx? (fun c => c = s)).map (fun i => (i : ℚ))))

/-- `label_encoding(label_cols)`: the list of produced (column name,
encoded values) pairs.  The ranked branch (lines 88-118) runs only when
`label_cols` equals `rankedBranchCols`; every other argument — the
documented default included — falls to the sklearn branch of lines
120-123, which overwrites each listed column in place. -/
def label_encoding (label_cols : List String) (col : String → List String) :
    List (String × List (Option ℚ)) :=
  if label_cols = rankedBranchCols then
    [("floodZoneType_label_encoding", (col "floodZoneType").map order_flood),
     ("buildingCondition_label_encoding",
       (col "buildingCondition").map order_building),
     ("epcScore_label_encoding", (col "epcScore").map order_epcScore)]
  else
    label_cols.map (fun c => (c, sklearnTransform (col c)))

/-! ### `DataCleaner.write_to_csv` / `DataCleaner.create_dataframe`
(utils/data_processing.py, lines 19-40 and 136-153)

A dataframe is modelled by its row index, its header (column names) and
its row-major cells; a written CSV file by its list of records.
`to_csv(..., index=False)` writes the header line followed by the rows,
without the index.  `read_csv(..., index_col=0)` takes the first field
of the header as the index name (dropped here, as the claims compare
row/column values) and the first field of every record as the row key. -/

structure DF where
  index : List String
  header : List String
  rows : List (List String)

/-- `write_to_csv`: the records of the written file (`index=False`). -/
def write_to_csv (df : DF) : List (List String) :=
  df.header :: df.rows

/-- `create_dataframe`: `pd.read_csv(..., index_col=0)` on the records of
a file.  An empty file is a parse error in pandas; the embedding never
reaches that case since `write_to_csv` always emits the header line. -/
def create_dataframe (csv : List (List String)) : DF :=
  match csv with
  | [] => ⟨[], [], []⟩
  | h :: rs => ⟨rs.map (fun r => r.headD ""), h.tail, rs.map (fun r => r.tail)⟩

/-! ### `Correlation.corr_cals` (utils/correlation.py, lines 141-155)

A numeric dataframe is a list of named columns of optional rationals.
Pandas `df.corr()` computes, for each pair of columns, the Pearson
coefficient over the rows where both entries are present.  Rationals
cannot carry the square root in
`r = (n·Σxy - Σx·Σy) / √((n·Σxx - (Σx)²)·(n·Σyy - (Σy)²))`,
so a matrix entry is embedded as the pair
`(n·Σxy - Σx·Σy, (n·Σxx - (Σx)²)·(n·Σyy - (Σy)²))` of the numerator and
the square of the denominator, which determines `r` exactly; two entries
with equal pairs are equal coefficients. -/

structure NumTable where
  cols : List (String × List (Option ℚ))

/-- The rows where both columns are present, in order — pandas pairwise
deletion of missing values. -/
def pairRows (xs ys : List (Option ℚ)) : List (ℚ × ℚ) :=
  (xs.zip ys).filterMap (fun p => p.1.bind (fun a => p.2.map (fun b => (a, b))))

def corrNum (ps : List (ℚ × ℚ)) : ℚ :=
  (ps.length : ℚ) * (ps.map (fun p => p.1 * p.2)).sum -
    (ps.map Prod.fst).sum * (ps.map Prod.snd).sum

def corrDenSq (ps : List (ℚ × ℚ)) : ℚ :=
  ((ps.length : ℚ) * (ps.map (fun p => p.1 * p.1)).sum - (ps.map Prod.fst).sum ^ 2) *
    ((ps.length : ℚ) * (ps.map (fun p => p.2 * p.2)).sum - (ps.map Prod.snd).sum ^ 2)

/-- The embedded Pearson coefficient of two columns. -/
def corrRep (xs ys : List (Option ℚ)) : ℚ × ℚ :=
  (corrNum (pairRows xs ys), corrDenSq (pairRows xs ys))

/-- `reorder_cols = ["price"] + [col for col in df.columns if col != "price"]`
(line 151). -/
def reorder_cols (names : List String) : List String :=
  "price" :: names.filter (fun c => ¬ c = "price")

def getCol (t : NumTable) (name : String) : List (Option ℚ) :=
  ((t.cols.find? (fun c => c.1 = name)).map Prod.snd).getD []

/-- `corr_cals`: the labels of the correlation matrix, price first, and
its entry function. -/
def corr_cals (t : NumTable) : List String × (String → String → ℚ × ℚ) :=
  (reorder_cols (t.cols.map Prod.fst),
   fun a b => corrRep (getCol t a) (getCol t b))

/-! ### Concrete instances used by counterexamples and witnesses -/

/-- Matrix of the documented drop scenario: price-correlations 0.9 (A)
and 0.5 (B), pairwise correlation 0.95. -/
def entryDrop : String → String → ℚ := fun a b =>
  if a = b then 1
  else if a = "price" ∨ b = "price" then
    (if a = "A" ∨ b = "A" then (9:ℚ)/10 else (1:ℚ)/2)
  else (19:ℚ)/20

def mDrop : CorrMatrix := ⟨["price", "A", "B"], entryDrop⟩

/-- Matrix with a tie: both non-price columns have price-correlation 0.5
and pairwise correlation 0.9. -/
def entryTie : String → String → ℚ := fun a b =>
  if a = b then 1
  else if a = "price" ∨ b = "price" then (1:ℚ)/2
  else (9:ℚ)/10

def mTie : CorrMatrix := ⟨["price", "a", "b"], entryTie⟩

/-- Two-column matrix with off-diagonal correlation 0.5. -/
def entryPair : String → String → ℚ := fun a b =>
  if a = b then 1 else (1:ℚ)/2

def mPair : CorrMatrix := ⟨["price", "a"], entryPair⟩

/-- A two-column text table with a missing province entry. -/
def tenTable : TextTable :=
  ⟨[("locality", [some "Gent"]), ("province", [none, some "Namur"])]⟩

/-- The column lookup used against `label_encoding`: the `epcScore`
column holds the composite score `G_C`. -/
def epcColumns : String → List String := fun c =>
  if c = "epcScore" then ["G_C"] else ["GOOD"]

/-- A loaded two-column dataframe with one data row. -/
def dfPair : DF := ⟨["0"], ["a", "b"], [["1", "2"]]⟩

/-- A numeric table with a price column and one partly missing row. -/
def numPair : NumTable :=
  ⟨[("price", [some 1, some 2, none]), ("area", [some 3, some 5, some 4])]⟩

/-! ## Theorems

First the helper lemmas about the embedded operations, then one theorem
per verified claim (with its witness or counterexample where needed). -/

/-! ### The stable sort -/

theorem insertBy_perm {α : Type} (lt : α → α → Bool) (x : α) (l : List α) :
    (insertBy lt x l).Perm (x :: l) := by
  induction l with
  | nil => simp [insertBy]
  | cons y ys ih =>
      simp only [insertBy]
      split
      · exact ((ih.cons y).trans (List.Perm.swap x y ys))
      · exact List.Perm.refl _

theorem sortBy_perm {α : Type} (lt : α → α → Bool) (l : List α) :
    (sortBy lt l).Perm l := by
  induction l with
  | nil => simp [sortBy]
  | cons x xs ih => exact (insertBy_perm lt x (sortBy lt xs)).trans (ih.cons x)

theorem mem_sortBy {α : Type} {lt : α → α → Bool} {l : List α} {a : α} :
    a ∈ sortBy lt l ↔ a ∈ l :=
  (sortBy_perm lt l).mem_iff

theorem nodup_sortBy {α : Type} {lt : α → α → Bool} {l : List α} (h : l.Nodup) :
    (sortBy lt l).Nodup :=
  ((sortBy_perm lt l).nodup_iff).mpr h

/-! ### Extensional characterization of the greedy loop -/

theorem pops_fst_iff (m : CorrMatrix) (t2 : ℚ) (u v : String) :
    pops m t2 u v v ↔
      u ≠ v ∧ t2 ≤ m.entry u v ∧ |priceCorr m v| < |priceCorr m u| := by
  unfold pops popTarget
  constructor
  · rintro ⟨hne, hle, heq⟩
    refine ⟨hne, hle, ?_⟩
    by_contra hlt
    rw [if_neg hlt] at heq
    exact hne heq.symm
  · rintro ⟨hne, hle, hlt⟩
    exact ⟨hne, hle, by rw [if_pos hlt]⟩

theorem pops_snd_iff (m : CorrMatrix) (t2 : ℚ) (u v : String) :
    pops m t2 v u v ↔
      v ≠ u ∧ t2 ≤ m.entry v u ∧ |priceCorr m v| ≤ |priceCorr m u| := by
  unfold pops popTarget
  constructor
  · rintro ⟨hne, hle, heq⟩
    refine ⟨hne, hle, ?_⟩
    by_contra hlt
    push_neg at hlt
    rw [if_pos hlt] at heq
    exact hne heq
  · rintro ⟨hne, hle, hge⟩
    refine ⟨hne, hle, ?_⟩
    rw [if_neg (not_lt.mpr hge)]

theorem pops_mem (m : CorrMatrix) (t2 : ℚ) (v1 v2 v : String)
    (h : pops m t2 v1 v2 v) : v = v1 ∨ v = v2 := by
  rcases h with ⟨-, -, heq⟩
  unfold popTarget at heq
  split at heq
  · exact Or.inr heq
  · exact Or.inl heq

theorem mem_pairStep (m : CorrMatrix) (t2 : ℚ) {acc : List String}
    (hacc : acc.Nodup) (v1 v2 v : String) :
    v ∈ pairStep m t2 acc v1 v2 ↔ v ∈ acc ∧ ¬ pops m t2 v1 v2 v := by
  unfold pairStep
  split
  · next hcond =>
      rw [hacc.mem_erase_iff]
      unfold pops
      constructor
      · rintro ⟨hne, hmem⟩
        exact ⟨hmem, fun h => hne h.2.2⟩
      · rintro ⟨hmem, hnp⟩
        exact ⟨fun h => hnp ⟨hcond.1, hcond.2, h⟩, hmem⟩
  · next hcond =>
      unfold pops
      constructor
      · intro h
        exact ⟨h, fun hp => hcond ⟨hp.1, hp.2.1⟩⟩
      · exact fun h => h.1

theorem nodup_pairStep (m : CorrMatrix) (t2 : ℚ) {acc : List String}
    (hacc : acc.Nodup) (v1 v2 : String) : (pairStep m t2 acc v1 v2).Nodup := by
  unfold pairStep
  split
  · exact hacc.erase _
  · exact hacc

theorem mem_innerFold (m : CorrMatrix) (t2 : ℚ) (v1 v : String) :
    ∀ (l : List String) (acc : List String), acc.Nodup →
      (v ∈ l.foldl (fun a v2 => pairStep m t2 a v1 v2) acc ↔
        v ∈ acc ∧ ∀ v2 ∈ l, ¬ pops m t2 v1 v2 v)
  | [], acc, _ => by simp
  | v2 :: l, acc, hacc => by
      rw [List.foldl_cons,
        mem_innerFold m t2 v1 v l (pairStep m t2 acc v1 v2)
          (nodup_pairStep m t2 hacc v1 v2),
        mem_pairStep m t2 hacc v1 v2 v]
      constructor
      · rintro ⟨⟨hmem, hv2⟩, hrest⟩
        refine ⟨hmem, ?_⟩
        intro u hu
        rcases List.mem_cons.mp hu with h | h
        · exact h ▸ hv2
        · exact hrest u h
      · rintro ⟨hmem, hall⟩
        exact ⟨⟨hmem, hall v2 (List.mem_cons_self v2 l)⟩,
          fun u hu => hall u (List.mem_cons_of_mem v2 hu)⟩

theorem nodup_innerFold (m : CorrMatrix) (t2 : ℚ) (v1 : String) :
    ∀ (l : List String) (acc : List String), acc.Nodup →
      (l.foldl (fun a v2 => pairStep m t2 a v1 v2) acc).Nodup
  | [], _, hacc => hacc
  | v2 :: l, acc, hacc => by
      rw [List.foldl_cons]
      exact nodup_innerFold m t2 v1 l _ (nodup_pairStep m t2 hacc v1 v2)

theorem mem_outerFold (m : CorrMatrix) (t2 : ℚ) (s : List String) (v : String) :
    ∀ (l : List String) (acc : List String), acc.Nodup →
      (v ∈ l.foldl (fun acc1 v1 => s.foldl (fun a v2 => pairStep m t2 a v1 v2) acc1) acc ↔
        v ∈ acc ∧ ∀ v1 ∈ l, ∀ v2 ∈ s, ¬ pops m t2 v1 v2 v)
  | [], acc, _ => by simp
  | v1 :: l, acc, hacc => by
      rw [List.foldl_cons,
        mem_outerFold m t2 s v l _ (nodup_innerFold m t2 v1 s acc hacc),
        mem_innerFold m t2 v1 v s acc hacc]
      constructor
      · rintro ⟨⟨hmem, hv1⟩, hrest⟩
        refine ⟨hmem, ?_⟩
        intro u hu
        rcases List.mem_cons.mp hu with h | h
        · exact h ▸ hv1
        · exact hrest u h
      · rintro ⟨hmem, hall⟩
        exact ⟨⟨hmem, hall v1 (List.mem_cons_self v1 l)⟩,
          fun u hu => hall u (List.mem_cons_of_mem v1 hu)⟩

theorem mem_selectLoop (m : CorrMatrix) (t2 : ℚ) {s : List String}
    (hs : s.Nodup) (v : String) :
    v ∈ selectLoop m t2 s ↔
      v ∈ s ∧ ∀ v1 ∈ s, ∀ v2 ∈ s, ¬ pops m t2 v1 v2 v := by
  unfold selectLoop
  exact mem_outerFold m t2 s v s s hs

theorem nodup_rawSelect (m : CorrMatrix) (t1 : ℚ) (h : m.cols.Nodup) :
    (rawSelect m t1).Nodup :=
  h.filter _

theorem nodup_sortedSelect (m : CorrMatrix) (t1 : ℚ) (h : m.cols.Nodup) :
    (sortedSelect m t1).Nodup :=
  nodup_sortBy ((nodup_rawSelect m t1 h).erase _)

theorem mem_sortedSelect (m : CorrMatrix) (t1 : ℚ) (h : m.cols.Nodup) (v : String) :
    v ∈ sortedSelect m t1 ↔ v ≠ "price" ∧ v ∈ m.cols ∧ t1 ≤ |priceCorr m v| := by
  unfold sortedSelect
  rw [mem_sortBy, (nodup_rawSelect m t1 h).mem_erase_iff]
  unfold rawSelect
  rw [List.mem_filter]
  simp only [decide_eq_true_eq, and_assoc]

/-- Extensional description of the keys of `select_final`: a candidate `v`
survives the greedy loop iff no other candidate `u` pops it, either as
`(var1, var2) = (u, v)` — needing `corr.loc[u, v] >= thres2` and
`abs(corr(price, u)) > abs(corr(price, v))` — or as `(var1, var2) = (v, u)`
— needing `corr.loc[v, u] >= thres2` and
`abs(corr(price, v)) <= abs(corr(price, u))`. -/
theorem mem_selectLoop_sortedSelect (m : CorrMatrix) (t1 t2 : ℚ)
    (h : m.cols.Nodup) (v : String) :
    v ∈ selectLoop m t2 (sortedSelect m t1) ↔
      v ∈ sortedSelect m t1 ∧ ∀ u ∈ sortedSelect m t1, u ≠ v →
        ¬ (t2 ≤ m.entry u v ∧ |priceCorr m v| < |priceCorr m u|) ∧
        ¬ (t2 ≤ m.entry v u ∧ |priceCorr m v| ≤ |priceCorr m u|) := by
  rw [mem_selectLoop m t2 (nodup_sortedSelect m t1 h) v]
  constructor
  · rintro ⟨hv, hall⟩
    refine ⟨hv, ?_⟩
    intro u hu hne
    constructor
    · rintro ⟨hle, hlt⟩
      exact hall u hu v hv ((pops_fst_iff m t2 u v).mpr ⟨hne, hle, hlt⟩)
    · rintro ⟨hle, hge⟩
      exact hall v hv u hu ((pops_snd_iff m t2 u v).mpr ⟨Ne.symm hne, hle, hge⟩)
  · rintro ⟨hv, hall⟩
    refine ⟨hv, ?_⟩
    intro v1 hv1 v2 hv2 hp
    rcases pops_mem m t2 v1 v2 v hp with rfl | rfl
    · rcases (pops_snd_iff m t2 v2 v).mp hp with ⟨hne, hle, hge⟩
      exact (hall v2 hv2 (Ne.symm hne)).2 ⟨hle, hge⟩
    · rcases (pops_fst_iff m t2 v1 v).mp hp with ⟨hne, hle, hlt⟩
      exact (hall v1 hv1 hne).1 ⟨hle, hlt⟩

theorem innerFold_eq_self (m : CorrMatrix) (t2 : ℚ) (v1 : String) :
    ∀ (l : List String) (acc : List String),
      (∀ v2 ∈ l, ¬ (v1 ≠ v2 ∧ t2 ≤ m.entry v1 v2)) →
      l.foldl (fun a v2 => pairStep m t2 a v1 v2) acc = acc
  | [], _, _ => rfl
  | v2 :: l, acc, h => by
      rw [List.foldl_cons]
      have h2 : pairStep m t2 acc v1 v2 = acc := by
        unfold pairStep
        rw [if_neg (h v2 (List.mem_cons_self v2 l))]
      rw [h2]
      exact innerFold_eq_self m t2 v1 l acc
        (fun u hu => h u (List.mem_cons_of_mem v2 hu))

theorem outerFold_eq_self (m : CorrMatrix) (t2 : ℚ) (s : List String) :
    ∀ (l : List String) (acc : List String),
      (∀ v1 ∈ l, ∀ v2 ∈ s, ¬ (v1 ≠ v2 ∧ t2 ≤ m.entry v1 v2)) →
      l.foldl (fun acc1 v1 => s.foldl (fun a v2 => pairStep m t2 a v1 v2) acc1) acc = acc
  | [], _, _ => rfl
  | v1 :: l, acc, h => by
      rw [List.foldl_cons,
        innerFold_eq_self m t2 v1 s acc (h v1 (List.mem_cons_self v1 l))]
      exact outerFold_eq_self m t2 s l acc
        (fun u hu => h u (List.mem_cons_of_mem v1 hu))

theorem selectLoop_eq_self (m : CorrMatrix) (t2 : ℚ) (s : List String)
    (h : ∀ v1 ∈ s, ∀ v2 ∈ s, ¬ (v1 ≠ v2 ∧ t2 ≤ m.entry v1 v2)) :
    selectLoop m t2 s = s :=
  outerFold_eq_self m t2 s s s h

/-! ### Evaluations of the concrete matrices -/

theorem mDrop_eval :
    sortedSelect mDrop ((2:ℚ)/5) = ["A", "B"] ∧
    select_features mDrop ((2:ℚ)/5) ((3:ℚ)/10) = Except.ok ["A"] := by
  have h1 : priceCorr mDrop "price" = 1 := by simp [priceCorr, mDrop, entryDrop]
  have h2 : priceCorr mDrop "A" = 9/10 := by simp [priceCorr, mDrop, entryDrop]
  have h3 : priceCorr mDrop "B" = 1/2 := by simp [priceCorr, mDrop, entryDrop]
  have hAB : mDrop.entry "A" "B" = 19/20 := by simp [mDrop, entryDrop]
  have hBA : mDrop.entry "B" "A" = 19/20 := by simp [mDrop, entryDrop]
  have hraw : rawSelect mDrop ((2:ℚ)/5) = ["price", "A", "B"] := by
    show (["price", "A", "B"].filter (fun v => (2:ℚ)/5 ≤ |priceCorr mDrop v|)) = _
    simp only [List.filter_cons, List.filter_nil, decide_eq_true_eq, h1, h2, h3]
    norm_num [abs]
  have hsorted : sortedSelect mDrop ((2:ℚ)/5) = ["A", "B"] := by
    unfold sortedSelect
    rw [hraw]
    have herase : (["price", "A", "B"] : List String).erase "price" = ["A", "B"] := by
      decide
    rw [herase]
    simp only [sortBy, insertBy, h2, h3]
    norm_num [abs]
  refine ⟨hsorted, ?_⟩
  have hmem : "price" ∈ rawSelect mDrop ((2:ℚ)/5) := by
    rw [hraw]
    decide
  unfold select_features
  rw [if_pos hmem, hsorted]
  unfold selectLoop
  simp only [List.foldl_cons, List.foldl_nil]
  simp only [pairStep, popTarget, h2, h3, hAB, hBA]
  norm_num [abs, List.erase_cons]
  simp

theorem mTie_eval :
    sortedSelect mTie ((2:ℚ)/5) = ["a", "b"] ∧
    select_features mTie ((2:ℚ)/5) ((1:ℚ)/2) = Except.ok [] := by
  have h1 : priceCorr mTie "price" = 1 := by simp [priceCorr, mTie, entryTie]
  have h2 : priceCorr mTie "a" = 1/2 := by simp [priceCorr, mTie, entryTie]
  have h3 : priceCorr mTie "b" = 1/2 := by simp [priceCorr, mTie, entryTie]
  have hab : mTie.entry "a" "b" = 9/10 := by simp [mTie, entryTie]
  have hba : mTie.entry "b" "a" = 9/10 := by simp [mTie, entryTie]
  have hraw : rawSelect mTie ((2:ℚ)/5) = ["price", "a", "b"] := by
    show (["price", "a", "b"].filter (fun v => (2:ℚ)/5 ≤ |priceCorr mTie v|)) = _
    simp only [List.filter_cons, List.filter_nil, decide_eq_true_eq, h1, h2, h3]
    norm_num [abs]
  have hsorted : sortedSelect mTie ((2:ℚ)/5) = ["a", "b"] := by
    unfold sortedSelect
    rw [hraw]
    have herase : (["price", "a", "b"] : List String).erase "price" = ["a", "b"] := by
      decide
    rw [herase]
    simp only [sortBy, insertBy, h2, h3]
    norm_num [abs]
  refine ⟨hsorted, ?_⟩
  have hmem : "price" ∈ rawSelect mTie ((2:ℚ)/5) := by
    rw [hraw]
    decide
  unfold select_features
  rw [if_pos hmem, hsorted]
  unfold selectLoop
  simp only [List.foldl_cons, List.foldl_nil]
  simp only [pairStep, popTarget, h2, h3, hab, hba]
  norm_num [abs, List.erase_cons]
  simp

theorem mPair_nodup : mPair.cols.Nodup := by decide

theorem mPair_diag : mPair.entry "price" "price" = 1 := by
  simp [mPair, entryPair]

/-! ### Symmetry of the embedded Pearson matrix -/

theorem pairRows_swap (xs ys : List (Option ℚ)) :
    pairRows ys xs = (pairRows xs ys).map Prod.swap := by
  unfold pairRows
  rw [← List.zip_swap xs ys, List.filterMap_map, List.map_filterMap]
  apply List.filterMap_congr
  intro p _
  rcases p with ⟨a | a, b | b⟩ <;> rfl

theorem corrNum_map_swap (l : List (ℚ × ℚ)) :
    corrNum (l.map Prod.swap) = corrNum l := by
  unfold corrNum
  rw [List.length_map, List.map_map, List.map_map, List.map_map]
  have h1 : ((fun p : ℚ × ℚ => p.1 * p.2) ∘ Prod.swap) = fun p : ℚ × ℚ => p.2 * p.1 := rfl
  have h2 : (Prod.fst ∘ Prod.swap : ℚ × ℚ → ℚ) = Prod.snd := rfl
  have h3 : (Prod.snd ∘ Prod.swap : ℚ × ℚ → ℚ) = Prod.fst := rfl
  have h4 : (l.map fun p : ℚ × ℚ => p.2 * p.1) = l.map fun p : ℚ × ℚ => p.1 * p.2 :=
    List.map_congr_left (fun a _ => mul_comm a.2 a.1)
  rw [h1, h2, h3, h4]
  ring

theorem corrDenSq_map_swap (l : List (ℚ × ℚ)) :
    corrDenSq (l.map Prod.swap) = corrDenSq l := by
  unfold corrDenSq
  rw [List.length_map, List.map_map, List.map_map, List.map_map, List.map_map]
  have h1 : ((fun p : ℚ × ℚ => p.1 * p.1) ∘ Prod.swap) = fun p : ℚ × ℚ => p.2 * p.2 := rfl
  have h2 : ((fun p : ℚ × ℚ => p.2 * p.2) ∘ Prod.swap) = fun p : ℚ × ℚ => p.1 * p.1 := rfl
  have h3 : (Prod.fst ∘ Prod.swap : ℚ × ℚ → ℚ) = Prod.snd := rfl
  have h4 : (Prod.snd ∘ Prod.swap : ℚ × ℚ → ℚ) = Prod.fst := rfl
  rw [h1, h2, h3, h4]
  ring

theorem corrRep_symm (xs ys : List (Option ℚ)) :
    corrRep xs ys = corrRep ys xs := by
  unfold corrRep
  rw [pairRows_swap xs ys, corrNum_map_swap, corrDenSq_map_swap]

/-! ### `removeCols` and `one_hot_encoding` on removable excludes -/

theorem removeCols_eq_filter :
    ∀ (excl names : List String), names.Nodup → excl.Nodup →
      (∀ c ∈ excl, c ∈ names) →
      removeCols names excl = Except.ok (names.filter (fun c => ¬ c ∈ excl))
  | [], names, _, _, _ => by
      simp [removeCols]
  | e :: excl, names, hn, he, hall => by
      unfold removeCols
      rw [if_pos (hall e (List.mem_cons_self e excl))]
      have hne : e ∉ excl := (List.nodup_cons.mp he).1
      have herase : names.erase e = names.filter (fun c => ¬ c = e) := by
        rw [hn.erase_eq_filter]
        apply List.filter_congr
        intro a _
        by_cases h : a = e <;> simp [h]
      rw [herase,
        removeCols_eq_filter excl (names.filter fun c => ¬ c = e) (hn.filter _)
          (List.nodup_cons.mp he).2
          (fun c hc => List.mem_filter.mpr
            ⟨hall c (List.mem_cons_of_mem e hc), by
              simp only [decide_eq_true_eq]
              intro hce
              exact hne (hce ▸ hc)⟩)]
      congr 1
      rw [List.filter_filter]
      apply List.filter_congr
      intro a _
      simp only [List.mem_cons, not_or, Bool.decide_and]
      rw [Bool.and_comm]

/-! ### The verified claims -/

/-- C1: in `select_features`, candidacy is filtered through the absolute
value — `v` is selected iff `v` is a column and
`abs(corr(price, v)) >= thres1` — while the redundancy test of the greedy
loop compares the raw signed pairwise coefficient `corr.loc[var1, var2]`
against `thres2`: a candidate is popped exactly through an iteration whose
raw coefficient is `>= thres2`, and when every pairwise coefficient among
the candidates is `<= -thres2 < 0` (strong negative collinearity), no
candidate is ever pruned. -/
theorem select_features_abs_candidacy_signed_redundancy
    (m : CorrMatrix) (t1 t2 : ℚ) (hnd : m.cols.Nodup) :
    (∀ v, v ∈ rawSelect m t1 ↔ v ∈ m.cols ∧ t1 ≤ |priceCorr m v|) ∧
    (∀ l, select_features m t1 t2 = Except.ok l → ∀ v,
      (v ∈ l ↔ v ∈ sortedSelect m t1 ∧ ∀ u ∈ sortedSelect m t1, u ≠ v →
        ¬ (t2 ≤ m.entry u v ∧ |priceCorr m v| < |priceCorr m u|) ∧
        ¬ (t2 ≤ m.entry v u ∧ |priceCorr m v| ≤ |priceCorr m u|))) ∧
    (0 < t2 → (∀ u ∈ sortedSelect m t1, ∀ w ∈ sortedSelect m t1, u ≠ w →
        m.entry u w ≤ -t2) →
      ∀ l, select_features m t1 t2 = Except.ok l → l = sortedSelect m t1) := by
  refine ⟨?_, ?_, ?_⟩
  · intro v
    unfold rawSelect
    rw [List.mem_filter]
    simp only [decide_eq_true_eq]
  · intro l hl v
    unfold select_features at hl
    split at hl
    · injection hl with hl
      subst hl
      exact mem_selectLoop_sortedSelect m t1 t2 hnd v
    · exact absurd hl (by simp)
  · intro ht2 hneg l hl
    unfold select_features at hl
    split at hl
    · injection hl with hl
      subst hl
      apply selectLoop_eq_self
      intro v1 h1 v2 h2
      rintro ⟨hne, hle⟩
      have := hneg v1 h1 v2 h2 hne
      linarith
    · exact absurd hl (by simp)

/-- Witness for C1, discharging its hypothesis at the matrix `mPair`. -/
theorem select_features_abs_candidacy_signed_redundancy_witness :
    "a" ∈ rawSelect mPair ((1:ℚ)/2) ↔
      "a" ∈ mPair.cols ∧ (1:ℚ)/2 ≤ |priceCorr mPair "a"| :=
  (select_features_abs_candidacy_signed_redundancy mPair ((1:ℚ)/2) ((1:ℚ)/2)
    (by decide)).1 "a"

/-- C2 counterexample: with thres1 = 1.1 the call does raise — "price"
itself fails the `abs >= thres1` filter, so `select.pop("price")` raises a
KeyError instead of yielding an empty selection. -/
theorem select_features_thres1_above_one_raises :
    select_features mPair ((11:ℚ)/10) ((1:ℚ)/2) =
      Except.error "KeyError: price" := by
  have h1 : priceCorr mPair "price" = 1 := by simp [priceCorr, mPair, entryPair]
  have h2 : priceCorr mPair "a" = 1/2 := by simp [priceCorr, mPair, entryPair]
  have hraw : rawSelect mPair ((11:ℚ)/10) = [] := by
    show (["price", "a"].filter (fun v => (11:ℚ)/10 ≤ |priceCorr mPair v|)) = _
    simp only [List.filter_cons, List.filter_nil, decide_eq_true_eq, h1, h2]
    norm_num [abs]
  unfold select_features
  rw [hraw]
  simp

/-- C2 (amended): with `thres1 > 1`, `select_features` raises a KeyError
from the default-less `select.pop("price")` (the price self-correlation 1
fails its own filter); when "price" does pass the filter and every other
column fails it, the empty candidate set yields an empty selection without
raising. -/
theorem select_features_keyerror_or_empty (m : CorrMatrix) (t1 t2 : ℚ)
    (hnd : m.cols.Nodup) (hdiag : m.entry "price" "price" = 1) :
    (1 < t1 → select_features m t1 t2 = Except.error "KeyError: price") ∧
    ((∀ v ∈ m.cols, v ≠ "price" → |priceCorr m v| < t1) →
      "price" ∈ rawSelect m t1 → select_features m t1 t2 = Except.ok []) := by
  constructor
  · intro ht
    have hnp : "price" ∉ rawSelect m t1 := by
      intro hmem
      simp only [rawSelect, List.mem_filter, decide_eq_true_eq] at hmem
      have h2 := hmem.2
      have hpc : priceCorr m "price" = 1 := hdiag
      rw [hpc, abs_one] at h2
      linarith
    unfold select_features
    rw [if_neg hnp]
  · intro hall hp
    have hers : (rawSelect m t1).erase "price" = [] := by
      rw [List.eq_nil_iff_forall_not_mem]
      intro v hv
      have h1 := (nodup_rawSelect m t1 hnd).mem_erase_iff.mp hv
      have h2 := h1.2
      simp only [rawSelect, List.mem_filter, decide_eq_true_eq] at h2
      exact absurd h2.2 (not_le.mpr (hall v h2.1 h1.1))
    have hsorted : sortedSelect m t1 = [] := by
      unfold sortedSelect
      rw [hers]
      rfl
    unfold select_features
    rw [if_pos hp, hsorted]
    rfl

/-- Witness for C2 amended theorem: at `mPair`, thres1 = 6/5 raises and
thres1 = 3/5 (only price passes) yields the empty selection. -/
theorem select_features_keyerror_or_empty_witness :
    select_features mPair ((6:ℚ)/5) ((1:ℚ)/2) = Except.error "KeyError: price" ∧
    select_features mPair ((3:ℚ)/5) ((1:ℚ)/2) = Except.ok [] := by
  constructor
  · exact (select_features_keyerror_or_empty mPair ((6:ℚ)/5) ((1:ℚ)/2)
      (by decide) (by simp [mPair, entryPair])).1 (by norm_num)
  · refine (select_features_keyerror_or_empty mPair ((3:ℚ)/5) ((1:ℚ)/2)
      (by decide) (by simp [mPair, entryPair])).2 ?_ ?_
    · intro v hv hne
      have hv2 : v = "price" ∨ v = "a" := by simpa [mPair] using hv
      rcases hv2 with rfl | rfl
      · exact absurd rfl hne
      · have hpa : priceCorr mPair "a" = 1/2 := by simp [priceCorr, mPair, entryPair]
        rw [hpa]
        norm_num [abs]
    · simp only [rawSelect, List.mem_filter, decide_eq_true_eq]
      refine ⟨by decide, ?_⟩
      have hpp : priceCorr mPair "price" = 1 := by simp [priceCorr, mPair, entryPair]
      rw [hpp]
      norm_num

/-- C3 counterexample: at `mTie` the two candidates are tied
(`abs(corr(price, a)) = abs(corr(price, b)) = 1/2`) and mutually redundant,
and the selection comes out empty — the first-encountered candidate "a"
is *not* kept. -/
theorem select_features_tie_counterexample :
    "a" ∈ sortedSelect mTie ((2:ℚ)/5) ∧ "b" ∈ sortedSelect mTie ((2:ℚ)/5) ∧
    select_features mTie ((2:ℚ)/5) ((1:ℚ)/2) = Except.ok [] := by
  refine ⟨?_, ?_, mTie_eval.2⟩
  · rw [mTie_eval.1]
    decide
  · rw [mTie_eval.1]
    decide

/-- C3 (amended): when two mutually redundant candidates have equal
absolute correlation with price, the loop visits the pair in both orders
and each visit pops its own first component, so *both* candidates are
dropped from the selection. -/
theorem select_features_tie_drops_both (m : CorrMatrix) (t1 t2 : ℚ)
    (hnd : m.cols.Nodup) (A B : String)
    (hA : A ∈ sortedSelect m t1) (hB : B ∈ sortedSelect m t1) (hne : A ≠ B)
    (heq : |priceCorr m A| = |priceCorr m B|)
    (hAB : t2 ≤ m.entry A B) (hBA : t2 ≤ m.entry B A) :
    ∀ l, select_features m t1 t2 = Except.ok l → A ∉ l ∧ B ∉ l := by
  intro l hl
  unfold select_features at hl
  split at hl
  · injection hl with hl
    subst hl
    constructor
    · intro hAmem
      have h := (mem_selectLoop_sortedSelect m t1 t2 hnd A).mp hAmem
      exact (h.2 B hB (Ne.symm hne)).2 ⟨hAB, le_of_eq heq⟩
    · intro hBmem
      have h := (mem_selectLoop_sortedSelect m t1 t2 hnd B).mp hBmem
      exact (h.2 A hA hne).2 ⟨hBA, le_of_eq heq.symm⟩
  · exact absurd hl (by simp)

/-- Witness for C3 amended theorem at the tied matrix `mTie`. -/
theorem select_features_tie_drops_both_witness :
    mTie.cols.Nodup ∧ |priceCorr mTie "a"| = |priceCorr mTie "b"| ∧
    ("a" : String) ∉ ([] : List String) ∧ ("b" : String) ∉ ([] : List String) := by
  have heq : |priceCorr mTie "a"| = |priceCorr mTie "b"| := by
    simp [priceCorr, mTie, entryTie]
  have hab : ((1:ℚ)/2) ≤ mTie.entry "a" "b" := by
    have h : mTie.entry "a" "b" = 9/10 := by simp [mTie, entryTie]
    rw [h]
    norm_num
  have hba : ((1:ℚ)/2) ≤ mTie.entry "b" "a" := by
    have h : mTie.entry "b" "a" = 9/10 := by simp [mTie, entryTie]
    rw [h]
    norm_num
  have hA : "a" ∈ sortedSelect mTie ((2:ℚ)/5) := by
    rw [mTie_eval.1]
    decide
  have hB : "b" ∈ sortedSelect mTie ((2:ℚ)/5) := by
    rw [mTie_eval.1]
    decide
  exact ⟨by decide, heq,
    (select_features_tie_drops_both mTie ((2:ℚ)/5) ((1:ℚ)/2) (by decide)
        "a" "b" hA hB (by decide) heq hab hba [] mTie_eval.2).1,
    (select_features_tie_drops_both mTie ((2:ℚ)/5) ((1:ℚ)/2) (by decide)
        "a" "b" hA hB (by decide) heq hab hba [] mTie_eval.2).2⟩

/-- C4: on the documented instance — corr(price, A) = 0.9,
corr(price, B) = 0.5, corr(A, B) = 0.95, thres1 = 0.4 admitting both,
thres2 = 0.3 — the selection drops B and keeps A: of a redundant pair the
candidate with the smaller absolute price-correlation is removed. -/
theorem select_features_drops_weaker_of_redundant_pair :
    select_features mDrop ((2:ℚ)/5) ((3:ℚ)/10) = Except.ok ["A"] :=
  mDrop_eval.2

/-- C5: the ranked branch of `label_encoding` is dead for the documented
default columns: the guard on line 88 compares against
`building_ranking` — a slip for `buildingCondition` — so the default
argument falls to the generic sklearn branch, which encodes the composite
EPC score `G_C` as the integer rank 0 rather than as the missing
sentinel that the ranked dictionary itself assigns to `G_C`. -/
theorem label_encoding_default_misses_ranked_branch :
    defaultLabelCols ≠ rankedBranchCols ∧
    label_encoding defaultLabelCols epcColumns =
      [("floodZoneType", [some 0]), ("buildingCondition", [some 0]),
       ("epcScore", [some 0])] ∧
    order_epcScore "G_C" = none := by
  refine ⟨by decide, ?_, by decide⟩
  have hne : ¬ defaultLabelCols = rankedBranchCols := by decide
  unfold label_encoding
  rw [if_neg hne]
  simp [defaultLabelCols, epcColumns, sklearnTransform, sklearnClasses,
    sortBy, insertBy, List.dedup]

/-- C6 counterexample: writing `dfPair` with `write_to_csv` and reloading
with `create_dataframe` does not reproduce its columns — the reloaded
header is `["b"]`, not `["a", "b"]`, because `read_csv(index_col=0)`
consumes the first written column as the new index. -/
theorem write_read_roundtrip_counterexample :
    (create_dataframe (write_to_csv dfPair)).header ≠ dfPair.header := by
  decide

/-- C6 (amended): reloading a written table shifts the first written
column into the row index: the reloaded index holds the first field of
every row, and the header and rows keep exactly the fields after the
first; the original index is dropped by the write and not recovered. -/
theorem write_read_roundtrip_shifts_first_column (df : DF) :
    create_dataframe (write_to_csv df) =
      ⟨df.rows.map (fun r => r.headD ""), df.header.tail, df.rows.map List.tail⟩ :=
  rfl

/-- C7: for every table containing a numeric `price` column, `corr_cals`
pins `price` as the first row/column label, and the matrix is symmetric:
the embedded Pearson coefficient of `(a, b)` equals that of `(b, a)` for
all labels. -/
theorem corr_cals_price_first_symmetric (t : NumTable)
    (hp : "price" ∈ t.cols.map Prod.fst) :
    (corr_cals t).1.headD "" = "price" ∧
    ∀ a b, (corr_cals t).2 a b = (corr_cals t).2 b a := by
  refine ⟨rfl, ?_⟩
  intro a b
  exact corrRep_symm (getCol t a) (getCol t b)

/-- Witness for C7 at the concrete table `numPair`. -/
theorem corr_cals_price_first_symmetric_witness :
    ("price" ∈ numPair.cols.map Prod.fst) ∧
    (corr_cals numPair).1.headD "" = "price" ∧
    (corr_cals numPair).2 "area" "price" = (corr_cals numPair).2 "price" "area" :=
  ⟨by decide, (corr_cals_price_first_symmetric numPair (by decide)).1,
    (corr_cals_price_first_symmetric numPair (by decide)).2 "area" "price"⟩

/-- C8: `target_encoding` writes on every row the mean of `price` over the
rows sharing its category: X (prices 100, 200) ↦ 150 on both X rows and
Y (price 300) ↦ 300 on the Y row. -/
theorem target_encoding_group_mean :
    target_encoding ["X", "X", "Y"] [some 100, some 200, some 300] =
      [some 150, some 150, some 300] := by
  simp [target_encoding, groupMean, groupPrices, List.zip]
  norm_num

/-- C9: region derivation is a pure total lookup: Antwerp (in the
Flanders list) maps to Flanders, Namur (in the Walloon list) maps to
Walloon, and every province in neither list maps to the default bucket
Brussels. -/
theorem region_fixed_lookup_with_default :
    region "Antwerp" = "Flanders" ∧ region "Namur" = "Walloon" ∧
    ∀ p, p ∉ flanders_provinces → p ∉ wallonia_provinces →
      region p = "Brussels" := by
  refine ⟨by decide, by decide, ?_⟩
  intro p h1 h2
  unfold region
  rw [if_neg h1, if_neg h2]

/-- Witness for C9, discharging the default-bucket hypotheses at the
concrete province `Limburg` (absent from both lists). -/
theorem region_fixed_lookup_with_default_witness :
    "Limburg" ∉ flanders_provinces ∧ "Limburg" ∉ wallonia_provinces ∧
    region "Antwerp" = "Flanders" ∧ region "Namur" = "Walloon" ∧
    region "Limburg" = "Brussels" :=
  ⟨by decide, by decide, (region_fixed_lookup_with_default).1,
    (region_fixed_lookup_with_default).2.1,
    (region_fixed_lookup_with_default).2.2 "Limburg" (by decide) (by decide)⟩

/-- C10 counterexample: with `exclude_cols = ["locality", "locality"]`
every listed column *is* a text column of `tenTable`, yet the second
`list.remove` raises ValueError, the call errors out and no missing value
is filled. -/
theorem one_hot_encoding_duplicate_exclude_counterexample :
    "locality" ∈ tenTable.cols.map Prod.fst ∧
    one_hot_encoding ["locality", "locality"] tenTable =
      Except.error "locality" :=
  ⟨by decide, rfl⟩

/-- C10 (amended): when `exclude_cols` is duplicate-free and each of its
names is a text column (so the sequential removals cannot fail),
`one_hot_encoding` succeeds, keeps every excluded column untouched and
replaces the missing entries of every non-excluded text column with the
literal `unknown`. -/
theorem one_hot_encoding_requires_removable_excludes
    (excl : List String) (t : TextTable)
    (he : excl.Nodup) (hn : (t.cols.map Prod.fst).Nodup)
    (hall : ∀ c ∈ excl, c ∈ t.cols.map Prod.fst) :
    one_hot_encoding excl t = Except.ok ⟨t.cols.map (fun c =>
      if c.1 ∈ excl then c
      else (c.1, c.2.map (fun v => some (v.getD "unknown"))))⟩ := by
  unfold one_hot_encoding
  rw [removeCols_eq_filter excl (t.cols.map Prod.fst) hn he hall]
  dsimp only
  congr 2
  apply List.map_congr_left
  intro c hc
  have hcmem : c.1 ∈ t.cols.map Prod.fst := List.mem_map_of_mem Prod.fst hc
  by_cases hcx : c.1 ∈ excl
  · rw [if_neg, if_pos hcx]
    intro hmem
    have h2 := (List.mem_filter.mp hmem).2
    rw [decide_eq_true_eq] at h2
    exact h2 hcx
  · rw [if_pos, if_neg hcx]
    exact List.mem_filter.mpr ⟨hcmem, by simp [hcx]⟩

/-- Witness for C10 amended theorem at `tenTable`: the missing province
entry becomes `unknown`, the excluded `locality` column is untouched. -/
theorem one_hot_encoding_requires_removable_excludes_witness :
    one_hot_encoding ["locality"] tenTable =
      Except.ok ⟨[("locality", [some "Gent"]),
                  ("province", [some "unknown", some "Namur"])]⟩ := by
  have h := one_hot_encoding_requires_removable_excludes ["locality"] tenTable
    (by decide) (by decide) (by decide)
  rw [h]
  rfl

end ImmoEliza
